import Mathlib

/-!
Verification of the tumor-growth ODE tool (thrumor_ode.py).

The numerical core is embedded shallowly over the rationals: the model
function, the fixed-step RK4 integrator (including the exact semantics of
the time grid built by np.arange), the piecewise-linear interpolation used
by the error analyzer (np.interp), and the MAE metrics.  The GUI entry
validation predicate is embedded over character lists.
-/

namespace ThrumorOde

/-- Embedding of tumor_immune_model: dV/dt = r*V*(1 - V/K) - p*I*V and
dI/dt = s + alpha*I*V - d*I.  The time argument t is accepted and ignored,
exactly as in the source. -/
def tumor_immune_model (t V I r K p s alpha d : ℚ) : ℚ × ℚ :=
  (r * V * (1 - V / K) - p * I * V, s + alpha * I * V - d * I)

/-- Number of elements of np.arange(start, stop, step) for step ≠ 0:
max 0 ⌈(stop - start)/step⌉. -/
def arangeLen (start stop step : ℚ) : ℕ :=
  (⌈(stop - start) / step⌉).toNat

/-- One RK4 step of the loop body of runge_kutta_4: the four stage
evaluations k1 = h·f(t,V,I), k2 = h·f(t+h/2, V+k1_V/2, I+k1_I/2),
k3 = h·f(t+h/2, V+k2_V/2, I+k2_I/2), k4 = h·f(t+h, V+k3_V, I+k3_I), and the
update (V,I) + (k1 + 2k2 + 2k3 + k4)/6 componentwise. -/
def rk4_step (f : ℚ → ℚ → ℚ → ℚ × ℚ) (h t V I : ℚ) : ℚ × ℚ :=
  let k1 : ℚ × ℚ := (h * (f t V I).1, h * (f t V I).2)
  let k2 : ℚ × ℚ := (h * (f (t + h/2) (V + k1.1/2) (I + k1.2/2)).1,
                     h * (f (t + h/2) (V + k1.1/2) (I + k1.2/2)).2)
  let k3 : ℚ × ℚ := (h * (f (t + h/2) (V + k2.1/2) (I + k2.2/2)).1,
                     h * (f (t + h/2) (V + k2.1/2) (I + k2.2/2)).2)
  let k4 : ℚ × ℚ := (h * (f (t + h) (V + k3.1) (I + k3.2)).1,
                     h * (f (t + h) (V + k3.1) (I + k3.2)).2)
  (V + (k1.1 + 2*k2.1 + 2*k3.1 + k4.1) / 6,
   I + (k1.2 + 2*k2.2 + 2*k3.2 + k4.2) / 6)

/-- The (V, I) state after i iterations of the loop of runge_kutta_4.
Iteration i+1 reads t = t_values[i] = t0 + i*h together with the previous
state, as in the source loop. -/
def rk4_state (f : ℚ → ℚ → ℚ → ℚ × ℚ) (V0 I0 t0 h : ℚ) : ℕ → ℚ × ℚ
  | 0 => (V0, I0)
  | i + 1 =>
      let prev := rk4_state f V0 I0 t0 h i
      rk4_step f h (t0 + (i : ℚ) * h) prev.1 prev.2

/-- The i-th trajectory sample (t_values[i], V_values[i], I_values[i]). -/
def trajPoint (f : ℚ → ℚ → ℚ → ℚ × ℚ) (V0 I0 t0 h : ℚ) (i : ℕ) : ℚ × ℚ × ℚ :=
  (t0 + (i : ℚ) * h, rk4_state f V0 I0 t0 h i)

/-- Embedding of runge_kutta_4.  The grid is np.arange(t0, t_end + h, h);
h = 0 makes np.arange raise ZeroDivisionError (modelled as none), and an
empty grid makes the assignment V_values[0] = V0 raise IndexError
(modelled as none).  Otherwise the full trajectory list is returned. -/
def runge_kutta_4 (f : ℚ → ℚ → ℚ → ℚ × ℚ) (V0 I0 t0 t_end h : ℚ) :
    Option (List (ℚ × ℚ × ℚ)) :=
  if h = 0 then none
  else if arangeLen t0 (t_end + h) h = 0 then none
  else some ((List.range (arangeLen t0 (t_end + h) h)).map (trajPoint f V0 I0 t0 h))

/-- The shared experimental day grid (exp_days = exp_days_pbs in the source). -/
def exp_days_pbs : List ℚ := [0, 3, 6, 9, 12, 15, 18]

/-- Compiled-in PBS (control) tumor volumes. -/
def exp_tumor_pbs : List ℚ := [100, 166, 272, 414, 630, 892, 1550]

/-- np.mean of a list (the analyzer only applies it to nonempty lists). -/
def listMean (xs : List ℚ) : ℚ := xs.sum / xs.length

/-- Embedding of np.interp(x, xp, fp) for strictly increasing xp, with the
(xp, fp) samples zipped into one list: clamp to the first value below the
grid and to the last value above it, linear interpolation in between. -/
def interp (x : ℚ) : List (ℚ × ℚ) → ℚ
  | [] => 0
  | [p] => p.2
  | p :: q :: rest =>
      if x < p.1 then p.2
      else if x < q.1 then p.2 + (q.2 - p.2) * (x - p.1) / (q.1 - p.1)
      else interp x (q :: rest)

/-- The (t, V) samples of a trajectory, the two arrays the source passes to
np.interp(exp_days, t_values, V_values). -/
def trajTV (tr : List (ℚ × ℚ × ℚ)) : List (ℚ × ℚ) :=
  tr.map fun sample => (sample.1, sample.2.1)

/-- MAE of one dataset against a (t, V) curve: interpolate the curve onto
the dataset days, take absolute errors, average (np.mean(np.abs(...))). -/
def maeOf (days values : List ℚ) (tv : List (ℚ × ℚ)) : ℚ :=
  listMean (List.zipWith (fun day v => |interp day tv - v|) days values)

/-- MAE as percent of the dataset mean, with the source's guard:
100 * mae / np.mean(values) if np.mean(values) > 0 else 0. -/
def maePercentOf (days values : List ℚ) (tv : List (ℚ × ℚ)) : ℚ :=
  if listMean values > 0 then 100 * maeOf days values tv / listMean values else 0

/-- MAE as percent of the carrying capacity K, unguarded in the source:
100 * mae / K. -/
def maeNormalizedOf (days values : List ℚ) (tv : List (ℚ × ℚ)) (K : ℚ) : ℚ :=
  100 * maeOf days values tv / K

/-- Remove the first occurrence of a character, the effect of Python's
str.replace(c, "", 1). -/
def removeFirst (c : Char) : List Char → List Char
  | [] => []
  | x :: xs => if x = c then xs else x :: removeFirst c xs

/-- Python str.isdigit over ASCII text: nonempty and all digit characters. -/
def isdigitStr (s : List Char) : Bool :=
  !s.isEmpty && s.all Char.isDigit

/-- Embedding of validate_input: delete the first '.', then the first '-',
test isdigit on the remainder, or accept the empty string. -/
def validate_input (value : String) : Bool :=
  isdigitStr (removeFirst '-' (removeFirst '.' value.data)) || value == ""

end ThrumorOde

namespace ThrumorOde

theorem rk4_state_succ (f : ℚ → ℚ → ℚ → ℚ × ℚ) (V0 I0 t0 h : ℚ) (i : ℕ) :
    rk4_state f V0 I0 t0 h (i + 1) =
      rk4_step f h (t0 + (i : ℚ) * h) (rk4_state f V0 I0 t0 h i).1
        (rk4_state f V0 I0 t0 h i).2 := rfl

theorem arangeLen_ne_zero (t0 t_end h : ℚ) (hh : 0 < h) (hte : t0 ≤ t_end) :
    arangeLen t0 (t_end + h) h ≠ 0 := by
  have h1 : (1 : ℚ) ≤ (t_end + h - t0) / h := by
    rw [le_div_iff hh]; linarith
  have h2 : ((1 : ℤ) : ℚ) ≤ (⌈(t_end + h - t0) / h⌉ : ℚ) :=
    le_trans (by norm_num) (le_trans h1 (Int.le_ceil _))
  have h3 : (1 : ℤ) ≤ ⌈(t_end + h - t0) / h⌉ := by exact_mod_cast h2
  unfold arangeLen
  omega

theorem runge_kutta_4_eq_map (f : ℚ → ℚ → ℚ → ℚ × ℚ) (V0 I0 t0 t_end h : ℚ)
    (hh : h ≠ 0) (hn : arangeLen t0 (t_end + h) h ≠ 0) :
    runge_kutta_4 f V0 I0 t0 t_end h =
      some ((List.range (arangeLen t0 (t_end + h) h)).map (trajPoint f V0 I0 t0 h)) := by
  simp [runge_kutta_4, hh, hn]

theorem arangeLen_eq (start stop step : ℚ) (n : ℕ)
    (h1 : (n : ℚ) - 1 < (stop - start) / step) (h2 : (stop - start) / step ≤ n) :
    arangeLen start stop step = n := by
  unfold arangeLen
  have hc : ⌈(stop - start) / step⌉ = (n : ℤ) := by
    rw [Int.ceil_eq_iff]
    exact ⟨by exact_mod_cast h1, by exact_mod_cast h2⟩
  rw [hc]
  simp

theorem rk4_state_const (f : ℚ → ℚ → ℚ → ℚ × ℚ) (hf : ∀ t V I, f t V I = (0, 0))
    (V0 I0 t0 h : ℚ) : ∀ i, rk4_state f V0 I0 t0 h i = (V0, I0) := by
  intro i
  induction i with
  | zero => rfl
  | succ j ih => simp [rk4_state, ih, rk4_step, hf]

theorem zero_params_model (K : ℚ) :
    ∀ t V I, tumor_immune_model t V I 0 K 0 0 0 0 = (0, 0) := by
  intro t V I
  simp [tumor_immune_model]

/-- C1: for every step index i ≥ 1 of the trajectory returned by the
integrator, the sample at index i carries the state obtained from the
sample at index i−1 by the classical RK4 single-step update rk4_step:
k1 = h·f(t,V,I), k2 = h·f(t+h/2, V+k1_V/2, I+k1_I/2), k3 = h·f(t+h/2,
V+k2_V/2, I+k2_I/2), k4 = h·f(t+h, V+k3_V, I+k3_I), next state =
(V,I) + (k1 + 2k2 + 2k3 + k4)/6 componentwise. -/
theorem rk4_trajectory_step (f : ℚ → ℚ → ℚ → ℚ × ℚ) (V0 I0 t0 t_end h : ℚ)
    (tr : List (ℚ × ℚ × ℚ)) (htr : runge_kutta_4 f V0 I0 t0 t_end h = some tr)
    (i : ℕ) (h1 : 1 ≤ i) (hi : i < tr.length) :
    (tr.get ⟨i, hi⟩).2 =
      rk4_step f h (tr.get ⟨i - 1, by omega⟩).1
        (tr.get ⟨i - 1, by omega⟩).2.1 (tr.get ⟨i - 1, by omega⟩).2.2 := by
  by_cases hh : h = 0
  · simp [runge_kutta_4, hh] at htr
  by_cases hn : arangeLen t0 (t_end + h) h = 0
  · simp [runge_kutta_4, hh, hn] at htr
  rw [runge_kutta_4_eq_map f V0 I0 t0 t_end h hh hn] at htr
  obtain rfl : ((List.range (arangeLen t0 (t_end + h) h)).map (trajPoint f V0 I0 t0 h)) = tr :=
    Option.some.inj htr
  obtain ⟨j, rfl⟩ : ∃ j, i = j + 1 := ⟨i - 1, by omega⟩
  simp only [List.get_eq_getElem, List.getElem_map, List.getElem_range, Nat.add_sub_cancel]
  simp only [trajPoint, rk4_state_succ]

/-- C2: for every time t, state (V, I) and parameters, tumor_immune_model
returns exactly (r·V·(1 − V/K) − p·I·V, s + α·I·V − d·I), and the time
argument does not affect the result. -/
theorem model_returns_derivative_pair (t t2 V I r K p s alpha d : ℚ) :
    tumor_immune_model t V I r K p s alpha d =
      (r * V * (1 - V / K) - p * I * V, s + alpha * I * V - d * I) ∧
    tumor_immune_model t V I r K p s alpha d =
      tumor_immune_model t2 V I r K p s alpha d := ⟨rfl, rfl⟩

/-- C10: the entry validator accepts the empty string and several
non-numeric strings ("1-2", "5.", "2.-3") because it deletes at most one
'.' and at most one '-' before the digit test, while "--5" and "1.2.3"
are rejected. -/
theorem validate_input_behaviour :
    validate_input "" = true ∧
    validate_input "1-2" = true ∧
    validate_input "5." = true ∧
    validate_input "2.-3" = true ∧
    validate_input "--5" = false ∧
    validate_input "1.2.3" = false ∧
    validate_input "12.5" = true ∧
    validate_input "-3.5" = true := by
  decide

/-- C1 witness: the step relation at index 1 of a concrete run of the
integrator (zero-parameter model, V0 = 100, I0 = 10, t0 = 0, t_end = 1,
h = 1/2). -/
theorem rk4_trajectory_step_witness :
    (([((0:ℚ), (100:ℚ), (10:ℚ)), (1/2, 100, 10), (1, 100, 10)] : List (ℚ × ℚ × ℚ)).get
        ⟨1, by norm_num⟩).2 =
      rk4_step (fun t V I => tumor_immune_model t V I 0 1 0 0 0 0) (1/2)
        (([((0:ℚ), (100:ℚ), (10:ℚ)), (1/2, 100, 10), (1, 100, 10)] : List (ℚ × ℚ × ℚ)).get
            ⟨1 - 1, by norm_num⟩).1
        (([((0:ℚ), (100:ℚ), (10:ℚ)), (1/2, 100, 10), (1, 100, 10)] : List (ℚ × ℚ × ℚ)).get
            ⟨1 - 1, by norm_num⟩).2.1
        (([((0:ℚ), (100:ℚ), (10:ℚ)), (1/2, 100, 10), (1, 100, 10)] : List (ℚ × ℚ × ℚ)).get
            ⟨1 - 1, by norm_num⟩).2.2 := by
  have hf : ∀ t V I, (fun t V I => tumor_immune_model t V I 0 1 0 0 0 0) t V I = (0, 0) :=
    zero_params_model 1
  have htr : runge_kutta_4 (fun t V I => tumor_immune_model t V I 0 1 0 0 0 0)
      100 10 0 1 (1/2) = some [(0, 100, 10), (1/2, 100, 10), (1, 100, 10)] := by
    rw [runge_kutta_4_eq_map _ _ _ _ _ _ (by norm_num)
      (by rw [arangeLen_eq _ _ _ 3 (by norm_num) (by norm_num)]; norm_num)]
    rw [arangeLen_eq _ _ _ 3 (by norm_num) (by norm_num)]
    have hc := rk4_state_const _ hf 100 10 0 (1/2)
    norm_num [List.range_succ, trajPoint, hc]
  exact rk4_trajectory_step _ 100 10 0 1 (1/2) _ htr 1 (by norm_num) (by norm_num)

/-- C3 counterexample: for t0 = 0, t_end = 1, h = 2/5 (where t_end − t0 is
not an integer multiple of h), the integrator returns 4 samples, not
floor((t_end − t0)/h) + 1 = 3, and the last time 6/5 exceeds t_end = 1. -/
theorem rk4_grid_shape_counterexample :
    runge_kutta_4 (fun t V I => tumor_immune_model t V I 0 1 0 0 0 0) 100 10 0 1 (2/5) =
      some [(0, 100, 10), (2/5, 100, 10), (4/5, 100, 10), (6/5, 100, 10)] ∧
    (⌊(((1:ℚ) - 0) / (2/5))⌋).toNat + 1 = 3 ∧
    ([((0:ℚ), (100:ℚ), (10:ℚ)), (2/5, 100, 10), (4/5, 100, 10), (6/5, 100, 10)] :
      List (ℚ × ℚ × ℚ)).length = 4 ∧
    ¬ ((6:ℚ)/5 ≤ 1) := by
  refine ⟨?_, ?_, by norm_num, by norm_num⟩
  · have hf := zero_params_model 1
    rw [runge_kutta_4_eq_map _ _ _ _ _ _ (by norm_num)
      (by rw [arangeLen_eq _ _ _ 4 (by norm_num) (by norm_num)]; norm_num)]
    rw [arangeLen_eq _ _ _ 4 (by norm_num) (by norm_num)]
    have hc := rk4_state_const _ hf 100 10 0 (2/5)
    norm_num [List.range_succ, trajPoint, hc]
  · have hfl : ⌊(((1:ℚ) - 0) / (2/5))⌋ = (2 : ℤ) := by
      rw [Int.floor_eq_iff]
      norm_num
    rw [hfl]
    decide

/-- C3 amended: for h > 0 and t0 ≤ t_end the integrator returns a
trajectory whose first sample is exactly (t0, V0, I0), whose i-th time is
exactly t0 + i·h (times spaced exactly h apart), and whose sample count is
⌈(t_end + h − t0)/h⌉; when t_end − t0 is an integer multiple m·h of h the
count equals m + 1 = floor((t_end − t0)/h) + 1 (so 41 samples for t0 = 0,
t_end = 20, h = 0.5), but not in general. -/
theorem rk4_grid_shape (f : ℚ → ℚ → ℚ → ℚ × ℚ) (V0 I0 t0 t_end h : ℚ)
    (hh : 0 < h) (hte : t0 ≤ t_end) :
    ∃ tr, runge_kutta_4 f V0 I0 t0 t_end h = some tr ∧
      tr.length = (⌈(t_end + h - t0) / h⌉).toNat ∧
      (∀ h0 : 0 < tr.length, tr.get ⟨0, h0⟩ = (t0, V0, I0)) ∧
      (∀ (i : ℕ) (hi : i < tr.length), (tr.get ⟨i, hi⟩).1 = t0 + (i : ℚ) * h) ∧
      (∀ m : ℕ, t_end - t0 = (m : ℚ) * h → tr.length = m + 1) := by
  have hne : h ≠ 0 := ne_of_gt hh
  have hn := arangeLen_ne_zero t0 t_end h hh hte
  refine ⟨_, runge_kutta_4_eq_map f V0 I0 t0 t_end h hne hn, ?_, ?_, ?_, ?_⟩
  · simp [arangeLen]
  · intro h0
    simp [List.get_eq_getElem, List.getElem_map, List.getElem_range, trajPoint, rk4_state]
  · intro i hi
    simp [List.get_eq_getElem, List.getElem_map, List.getElem_range, trajPoint]
  · intro m hm
    have h1 : t_end + h - t0 = ((m : ℚ) + 1) * h := by rw [add_one_mul, ← hm]; ring
    have h2 : arangeLen t0 (t_end + h) h = m + 1 := by
      unfold arangeLen
      rw [h1, mul_div_cancel_right₀ _ hne,
        show ((m : ℚ) + 1) = ((m + 1 : ℕ) : ℚ) by push_cast; ring, Int.ceil_natCast]
      simp
    simp [h2]

/-- C3 witness: with the zero-parameter model, V0 = 100, I0 = 10, t0 = 0,
t_end = 20 and h = 1/2 the trajectory exists and has exactly 41 samples. -/
theorem rk4_grid_shape_witness :
    ∃ tr, runge_kutta_4 (fun t V I => tumor_immune_model t V I 0 1 0 0 0 0)
        100 10 0 20 (1/2) = some tr ∧ tr.length = 41 := by
  obtain ⟨tr, htr, hlen, hfirst, htimes, hmul⟩ :=
    rk4_grid_shape (fun t V I => tumor_immune_model t V I 0 1 0 0 0 0)
      100 10 0 20 (1/2) (by norm_num) (by norm_num)
  exact ⟨tr, htr, by rw [hmul 40 (by norm_num)]⟩

/-- C4: with the all-zero parameter tuple (r = p = s = alpha = d = 0,
any K ≠ 0) and any h > 0, t0 ≤ t_end, every sample of the returned
trajectory carries V = V0 and I = I0. -/
theorem rk4_zero_params_constant (V0 I0 t0 t_end h K : ℚ)
    (hh : 0 < h) (hte : t0 ≤ t_end) (hK : K ≠ 0) :
    ∃ tr, runge_kutta_4 (fun t V I => tumor_immune_model t V I 0 K 0 0 0 0)
        V0 I0 t0 t_end h = some tr ∧
      ∀ sample ∈ tr, sample.2.1 = V0 ∧ sample.2.2 = I0 := by
  have hne : h ≠ 0 := ne_of_gt hh
  have hn := arangeLen_ne_zero t0 t_end h hh hte
  refine ⟨_, runge_kutta_4_eq_map _ V0 I0 t0 t_end h hne hn, ?_⟩
  intro sample hs
  rw [List.mem_map] at hs
  obtain ⟨i, _, rfl⟩ := hs
  simp [trajPoint, rk4_state_const _ (zero_params_model K) V0 I0 t0 h i]

/-- C4 witness: the all-zero parameter run with V0 = 100, I0 = 10, t0 = 0,
t_end = 20, h = 1/2, K = 2500 produces a constant trajectory. -/
theorem rk4_zero_params_constant_witness :
    ∃ tr, runge_kutta_4 (fun t V I => tumor_immune_model t V I 0 2500 0 0 0 0)
        100 10 0 20 (1/2) = some tr ∧
      ∀ sample ∈ tr, sample.2.1 = (100 : ℚ) ∧ sample.2.2 = (10 : ℚ) :=
  rk4_zero_params_constant 100 10 0 20 (1/2) 2500 (by norm_num) (by norm_num) (by norm_num)

/-- C5 counterexample: the mean of the stored PBS values
[100, 166, 272, 414, 630, 892, 1550] is 4024/7 = 574.857…, which is
strictly below 579.14, so the spec's divisor 579.14… is not the stored
mean. -/
theorem pbs_mean_counterexample :
    listMean exp_tumor_pbs = 4024 / 7 ∧ listMean exp_tumor_pbs < 57914 / 100 := by
  constructor <;> norm_num [listMean, exp_tumor_pbs]

/-- C5 amended: for every curve, the reported PBS MAE-percent equals
100 · MAE / (4024/7), where 4024/7 = 574.857… is the exact rational mean
of the seven stored PBS values. -/
theorem pbs_mae_percent (tv : List (ℚ × ℚ)) :
    maePercentOf exp_days_pbs exp_tumor_pbs tv =
      100 * maeOf exp_days_pbs exp_tumor_pbs tv / (4024 / 7) := by
  have hm : listMean exp_tumor_pbs = 4024 / 7 := by norm_num [listMean, exp_tumor_pbs]
  rw [maePercentOf, hm, if_pos (by norm_num)]

/-- C6 (code evaluated at the failing input): the integrator performs no
validation of the step size.  With h = −30 < 0 (and t0 = 0, t_end = 20,
default parameters) it returns a one-sample trajectory instead of a
configuration error, and with h = 0 it crashes inside the grid
construction (np.arange raises ZeroDivisionError, modelled as none). -/
theorem rk4_no_step_size_validation :
    runge_kutta_4 (fun t V I => tumor_immune_model t V I (1/5) 2500 (1/100) 5 (1/1000) (1/10))
        100 10 0 20 (-30) = some [(0, 100, 10)] ∧
    runge_kutta_4 (fun t V I => tumor_immune_model t V I (1/5) 2500 (1/100) 5 (1/1000) (1/10))
        100 10 0 20 0 = none := by
  constructor
  · rw [runge_kutta_4_eq_map _ _ _ _ _ _ (by norm_num)
      (by rw [arangeLen_eq _ _ _ 1 (by norm_num) (by norm_num)]; norm_num)]
    rw [arangeLen_eq _ _ _ 1 (by norm_num) (by norm_num)]
    norm_num [List.range_succ, trajPoint, rk4_state]
  · simp [runge_kutta_4]

/-- C7 (code evaluated at the failing input): the analyzer computes
mae_normalized = 100·MAE/K with no validation of K; with K = −1 and the
PBS dataset against the curve V ≡ 0 it silently reports the negative
percentage −402400/7 instead of a configuration error. -/
theorem mae_normalized_no_K_validation :
    maeNormalizedOf exp_days_pbs exp_tumor_pbs [(0, 0), (20, 0)] (-1) = -(402400/7) ∧
    maeNormalizedOf exp_days_pbs exp_tumor_pbs [(0, 0), (20, 0)] (-1) < 0 := by
  have h : maeOf exp_days_pbs exp_tumor_pbs [(0, 0), (20, 0)] = 4024/7 := by
    norm_num [maeOf, listMean, interp, exp_days_pbs, exp_tumor_pbs]
  refine ⟨?_, ?_⟩ <;> rw [maeNormalizedOf, h] <;> norm_num

/-- C8 counterexample: for the one-point dataset (day 0, value −1) against
the curve through (0, 5), the dataset mean −1 is nonzero, yet the analyzer
returns MAE-percent = 0 while 100·MAE/mean = −600. -/
theorem mae_percent_guard_counterexample :
    listMean [(-1 : ℚ)] ≠ 0 ∧
    maePercentOf [0] [-1] [(0, 5)] = 0 ∧
    100 * maeOf [0] [-1] [(0, 5)] / listMean [-1] = -600 := by
  refine ⟨by norm_num [listMean], ?_, ?_⟩
  · rw [maePercentOf, if_neg (by norm_num [listMean])]
  · norm_num [maeOf, listMean, interp]

/-- C8 amended: the analyzer returns MAE-percent = 0 whenever the dataset
mean is ≤ 0 (the source's guard is mean > 0, not mean ≠ 0) — in
particular for zero-mean datasets it returns 0 rather than dividing — and
for every dataset with positive mean it returns 100·MAE/mean. -/
theorem mae_percent_guard (days values : List ℚ) (tv : List (ℚ × ℚ)) :
    (listMean values ≤ 0 → maePercentOf days values tv = 0) ∧
    (0 < listMean values →
      maePercentOf days values tv = 100 * maeOf days values tv / listMean values) := by
  constructor
  · intro hle
    rw [maePercentOf, if_neg (not_lt.mpr hle)]
  · intro hpos
    rw [maePercentOf, if_pos hpos]

theorem interp_head_clamp (x : ℚ) (p : ℚ × ℚ) (rest : List (ℚ × ℚ)) (hx : x < p.1) :
    interp x (p :: rest) = p.2 := by
  cases rest with
  | nil => rfl
  | cons q r => simp [interp, hx]

theorem head_le_getLast_of_increasing (tv : List (ℚ × ℚ)) (hne : tv ≠ [])
    (hmono : tv.Pairwise fun a b => a.1 < b.1) :
    (tv.head hne).1 ≤ (tv.getLast hne).1 := by
  cases tv with
  | nil => exact absurd rfl hne
  | cons p rest =>
    cases rest with
    | nil => exact le_refl _
    | cons q r =>
      have hqr : (q :: r) ≠ [] := by simp
      rw [List.head_cons, List.getLast_cons hqr]
      have h2 := List.pairwise_cons.mp hmono
      exact le_of_lt (h2.1 _ (List.getLast_mem hqr))

theorem cons_head_le_get (a : ℚ × ℚ) (m : List (ℚ × ℚ))
    (hmono : (a :: m).Pairwise fun u v => u.1 < v.1) (j : ℕ) (hj : j < (a :: m).length) :
    a.1 ≤ ((a :: m).get ⟨j, hj⟩).1 := by
  cases j with
  | zero => exact le_refl _
  | succ k =>
    have h2 := List.pairwise_cons.mp hmono
    have hk : k < m.length := by simpa using hj
    have : (a :: m).get ⟨k + 1, hj⟩ = m.get ⟨k, hk⟩ := by
      simp [List.get_eq_getElem]
    rw [this]
    exact le_of_lt (h2.1 _ (List.get_mem m k hk))

theorem interp_last_clamp (x : ℚ) :
    ∀ (tv : List (ℚ × ℚ)) (hne : tv ≠ [])
      (hmono : tv.Pairwise fun a b => a.1 < b.1),
      (tv.getLast hne).1 ≤ x → interp x tv = (tv.getLast hne).2 := by
  intro tv
  induction tv with
  | nil => intro hne; exact absurd rfl hne
  | cons p rest ih =>
    intro hne hmono hx
    cases rest with
    | nil => rfl
    | cons q r =>
      have hqr : (q :: r) ≠ [] := by simp
      rw [List.getLast_cons hqr] at hx ⊢
      have h2 := List.pairwise_cons.mp hmono
      have hple : p.1 < ((q :: r).getLast hqr).1 := h2.1 _ (List.getLast_mem hqr)
      have hqle : q.1 ≤ ((q :: r).getLast hqr).1 := by
        have := head_le_getLast_of_increasing (q :: r) hqr h2.2
        simpa using this
      simp only [interp]
      rw [if_neg (by linarith), if_neg (by linarith)]
      exact ih hqr h2.2 hx

theorem interp_segment (x : ℚ) :
    ∀ (tv : List (ℚ × ℚ))
      (hmono : tv.Pairwise fun a b => a.1 < b.1)
      (i : ℕ) (hi1 : i + 1 < tv.length),
      (tv.get ⟨i, by omega⟩).1 ≤ x → x < (tv.get ⟨i + 1, hi1⟩).1 →
      interp x tv = (tv.get ⟨i, by omega⟩).2 +
        ((tv.get ⟨i + 1, hi1⟩).2 - (tv.get ⟨i, by omega⟩).2) * (x - (tv.get ⟨i, by omega⟩).1) /
          ((tv.get ⟨i + 1, hi1⟩).1 - (tv.get ⟨i, by omega⟩).1) := by
  intro tv
  induction tv with
  | nil =>
    intro _ i hi1
    simp at hi1
  | cons p rest ih =>
    intro hmono i hi1 hxl hxr
    cases rest with
    | nil => simp at hi1
    | cons q r =>
      have h2 := List.pairwise_cons.mp hmono
      cases i with
      | zero =>
        simp only [List.get_eq_getElem, List.getElem_cons_zero,
          List.getElem_cons_succ] at hxl hxr ⊢
        simp only [interp]
        rw [if_neg (by linarith), if_pos hxr]
      | succ j =>
        have hj1 : j + 1 < (q :: r).length := by simpa using hi1
        have hj : j < (q :: r).length := by omega
        simp only [List.get_eq_getElem, List.getElem_cons_succ] at hxl hxr ⊢
        have hpq : p.1 < ((q :: r).get ⟨j, hj⟩).1 :=
          h2.1 _ (List.get_mem (q :: r) j hj)
        have hq : q.1 ≤ ((q :: r).get ⟨j, hj⟩).1 := cons_head_le_get q r h2.2 j hj
        simp only [List.get_eq_getElem] at hpq hq
        simp only [interp]
        rw [if_neg (by linarith), if_neg (by linarith)]
        have := ih h2.2 j hj1 (by simpa using hxl) (by simpa using hxr)
        simpa using this

/-- C9: for a curve with at least two samples whose times are strictly
increasing, np.interp clamps queries before the first grid time to the
first volume and queries at or after the last grid time to the last
volume, and on every grid segment [t_i, t_{i+1}) it returns the linear
interpolant v_i + (v_{i+1} − v_i)·(x − t_i)/(t_{i+1} − t_i): the result is
piecewise-linear over the trajectory's time grid. -/
theorem interp_piecewise_linear (tv : List (ℚ × ℚ)) (h2 : 2 ≤ tv.length)
    (hmono : tv.Pairwise fun a b => a.1 < b.1) (x : ℚ) :
    (x < (tv.get ⟨0, by omega⟩).1 → interp x tv = (tv.get ⟨0, by omega⟩).2) ∧
    ((tv.get ⟨tv.length - 1, by omega⟩).1 ≤ x →
      interp x tv = (tv.get ⟨tv.length - 1, by omega⟩).2) ∧
    (∀ (i : ℕ) (hi1 : i + 1 < tv.length),
      (tv.get ⟨i, by omega⟩).1 ≤ x → x < (tv.get ⟨i + 1, hi1⟩).1 →
      interp x tv = (tv.get ⟨i, by omega⟩).2 +
        ((tv.get ⟨i + 1, hi1⟩).2 - (tv.get ⟨i, by omega⟩).2) * (x - (tv.get ⟨i, by omega⟩).1) /
          ((tv.get ⟨i + 1, hi1⟩).1 - (tv.get ⟨i, by omega⟩).1)) := by
  have hne : tv ≠ [] := by
    cases tv
    · simp at h2
    · simp
  refine ⟨?_, ?_, fun i hi1 hxl hxr => interp_segment x tv hmono i hi1 hxl hxr⟩
  · intro hx
    cases tv with
    | nil => simp at h2
    | cons p rest =>
      simp only [List.get_eq_getElem, List.getElem_cons_zero] at hx ⊢
      exact interp_head_clamp x p rest hx
  · intro hx
    have hg : tv.getLast hne = tv.get ⟨tv.length - 1, by omega⟩ := List.getLast_eq_get tv hne
    rw [← hg] at hx ⊢
    exact interp_last_clamp x tv hne hmono hx

/-- C9 witness: on the two-sample curve through (0, 10) and (2, 30),
interpolation returns 10 at x = −1 (clamp below), 30 at x = 5 (clamp
above), and 20 at x = 1 (linear interior). -/
theorem interp_piecewise_linear_witness :
    interp (-1) [((0:ℚ), (10:ℚ)), (2, 30)] = 10 ∧
    interp 5 [((0:ℚ), (10:ℚ)), (2, 30)] = 30 ∧
    interp 1 [((0:ℚ), (10:ℚ)), (2, 30)] = 20 := by
  have hm : ([((0:ℚ), (10:ℚ)), (2, 30)] : List (ℚ × ℚ)).Pairwise (fun a b => a.1 < b.1) := by
    simp [List.pairwise_cons]
  refine ⟨?_, ?_, ?_⟩
  · have h := (interp_piecewise_linear [((0:ℚ), (10:ℚ)), (2, 30)] (by norm_num) hm (-1)).1
    simp only [List.get_eq_getElem, List.getElem_cons_zero] at h
    exact h (by norm_num)
  · have h := (interp_piecewise_linear [((0:ℚ), (10:ℚ)), (2, 30)] (by norm_num) hm 5).2.1
    simp only [List.get_eq_getElem, List.getElem_cons_zero, List.getElem_cons_succ] at h
    exact h (by norm_num)
  · have h := (interp_piecewise_linear [((0:ℚ), (10:ℚ)), (2, 30)] (by norm_num) hm 1).2.2
      0 (by norm_num) (by simp) (by simp)
    simp only [List.get_eq_getElem, List.getElem_cons_zero, List.getElem_cons_succ] at h
    rw [h]
    norm_num

/-- C8 witness: a zero-mean dataset yields MAE-percent 0, and the PBS
dataset (positive mean) yields the 100·MAE/mean formula. -/
theorem mae_percent_guard_witness :
    maePercentOf [0] [0] [(0, 5)] = 0 ∧
    maePercentOf exp_days_pbs exp_tumor_pbs [(0, 0), (20, 0)] =
      100 * maeOf exp_days_pbs exp_tumor_pbs [(0, 0), (20, 0)] / listMean exp_tumor_pbs :=
  ⟨(mae_percent_guard [0] [0] [(0, 5)]).1 (by norm_num [listMean]),
   (mae_percent_guard exp_days_pbs exp_tumor_pbs [(0, 0), (20, 0)]).2
     (by norm_num [listMean, exp_tumor_pbs])⟩

end ThrumorOde
